import Mathlib

set_option maxHeartbeats 1000000
set_option maxRecDepth 16000

/-!
Shallow embedding of `cmd/chihuahuad/prune.go` (the `prune start` command:
orchestrated pruning and compaction of `blockstore.db` and `state.db`).

External collaborators (the goleveldb store, the tendermint block store, the
liveness probe) are modelled by oracle parameters: each fallible call takes an
`Option Err` (or a result-valued function) saying how that call behaves in the
run under consideration.  The logical contents of the state store are modelled
as the characteristic function of its key set, `String → Bool`.
-/

/-- Go `error` values, identified by their message. -/
abbrev Err := String

/-- Result of a Go function call that can also terminate by panicking
(needed because `compactBlockStore` can dereference a nil store handle in its
deferred close). -/
inductive Outcome where
  | ok : Outcome
  | fail : Err → Outcome
  | nilDeref : Outcome
deriving DecidableEq, Repr

/-- Maximum number of pending deletes per batch (`batchMaxSize` in prune.go). -/
def batchMaxSize : Nat := 1000

/-- Key namespace of validator sets (`kValidators` in prune.go). -/
def kValidators : String := "validatorsKey:"

/-- Key namespace of consensus parameters (`kConsensusParams` in prune.go). -/
def kConsensusParams : String := "consensusParamsKey:"

/-- Key namespace of ABCI responses (`kABCIResponses` in prune.go). -/
def kABCIResponses : String := "abciResponsesKey:"

/-- The three state-store namespaces in the order `pruneStateStore` iterates
them (`stateDBKeys := []string{kValidators, kConsensusParams, kABCIResponses}`). -/
def stateDBKeys : List String := [kValidators, kConsensusParams, kABCIResponses]

/-- Per-namespace retention height, as computed inside the namespace loop of
`pruneStateStore`: `currentHeight - minHeight` for the ABCI-responses
namespace and `currentHeight - fullHeight` for the other two. -/
def retainHeight (ns : String) (currentHeight minHeight fullHeight : Int) : Int :=
  if ns == kABCIResponses then currentHeight - minHeight else currentHeight - fullHeight

/-- Number of iterations of the Go loop
`for c := startHeight; c < retain_height; c++`. -/
def numCandidates (startHeight retain : Int) : Nat := (retain - startHeight).toNat

/-- Applying a batch of pending deletes to the logical store contents. -/
def applyDeletes (st : String → Bool) (batch : List String) : String → Bool :=
  fun k => st k && !(batch.contains k)

/-- goleveldb `db.Write(batch, nil)` on an open store: a batch with no pending
operations returns nil without touching the store (goleveldb's `Write` returns
early when `batch.Len() == 0`); otherwise the write oracle `wOrc` decides
whether this commit fails, and a successful commit applies all pending deletes
atomically and advances the commit index. -/
def dbWrite (wOrc : Nat → Option Err) (idx : Nat) (st : String → Bool)
    (batch : List String) : Except Err ((String → Bool) × Nat) :=
  if batch.isEmpty then Except.ok (st, idx)
  else
    match wOrc idx with
    | some e => Except.error e
    | none => Except.ok (applyDeletes st batch, idx + 1)

/-- Mutable state of the height loop in `pruneStateStore`: the store contents,
the pending batch, the Go counter `curBatchSize` (which is never reset inside
a namespace), the commit index feeding the write oracle, and how many mid-loop
commits have happened in this namespace. -/
structure LoopSt where
  store : String → Bool
  batch : List String
  curBatchSize : Nat
  writeIdx : Nat
  midCommits : Nat

/-- The height loop of `pruneStateStore` for one namespace, iterating the
candidate height `c = start + i` while fuel remains (the fuel is the number of
remaining iterations, `i` the number already performed).  Each iteration adds
a delete of `pfx + decimal(c)` to the batch, increments `curBatchSize`, and
when `curBatchSize % batchMaxSize == 0 && curBatchSize > 0` commits the batch
and starts a fresh one. -/
def heightLoop (wOrc : Nat → Option Err) (pfx : String) (start : Int) :
    Nat → Nat → LoopSt → Except Err LoopSt
  | 0, _, s => Except.ok s
  | n + 1, i, s =>
    let key := pfx ++ toString (start + (i : Int))
    let newBatch := s.batch ++ [key]
    let sz := s.curBatchSize + 1
    if sz % batchMaxSize = 0 ∧ 0 < sz then
      match dbWrite wOrc s.writeIdx s.store newBatch with
      | Except.error e => Except.error e
      | Except.ok (st, idx) =>
        heightLoop wOrc pfx start n (i + 1) ⟨st, [], sz, idx, s.midCommits + 1⟩
    else
      heightLoop wOrc pfx start n (i + 1) ⟨s.store, newBatch, sz, s.writeIdx, s.midCommits⟩

/-- Result of pruning one namespace: the store contents afterwards, the next
commit index, the number of mid-loop batch commits, and the total number of
`db.Write` calls made for the namespace (the mid-loop commits plus the one
unconditional flush after the loop). -/
structure NsResult where
  store : String → Bool
  writeIdx : Nat
  midCommits : Nat
  totalWrites : Nat

/-- One iteration of the namespace loop of `pruneStateStore`: run the height
loop from `start` up to (excluding) `retain` over namespace `ns`, then flush
the remaining batch with one final `db.Write` (made even when the batch is
empty, as in the Go code). -/
def pruneNamespace (wOrc : Nat → Option Err) (ns : String) (start retain : Int)
    (st : String → Bool) (writeIdx : Nat) : Except Err NsResult :=
  match heightLoop wOrc ns start (numCandidates start retain) 0 ⟨st, [], 0, writeIdx, 0⟩ with
  | Except.error e => Except.error e
  | Except.ok s =>
    match dbWrite wOrc s.writeIdx s.store s.batch with
    | Except.error e => Except.error e
    | Except.ok (st', idx') => Except.ok ⟨st', idx', s.midCommits, s.midCommits + 1⟩

/-- The namespace loop of `pruneStateStore`: prune each namespace of the given
list in order, threading the store contents and the commit index; the first
failing batch commit aborts the whole loop with that error. -/
def pruneNamespaces (wOrc : Nat → Option Err) (start cur minH fullH : Int) :
    List String → (String → Bool) → Nat → Except Err ((String → Bool) × Nat)
  | [], st, idx => Except.ok (st, idx)
  | ns :: rest, st, idx =>
    match pruneNamespace wOrc ns start (retainHeight ns cur minH fullH) st idx with
    | Except.error e => Except.error e
    | Except.ok r => pruneNamespaces wOrc start cur minH fullH rest r.store r.writeIdx

/-- Stages of the run, in the spec's state-machine vocabulary. -/
inductive Stage where
  | resolveHeights : Stage
  | pruneBlocks : Stage
  | compactBlocks : Stage
  | pruneState : Stage
  | compactState : Stage
deriving DecidableEq, Repr

/-- Model of `pruneStateStore` in prune.go: open `state.db` (the `defer db.Close()`
discards the close error, so it does not appear here), run the namespace loop
over the three namespaces, then issue one full-range `CompactRange`.
Compaction is physical only, so the logical contents are unchanged by it.
The second component records which of the spec's stages ran inside this call:
`pruneState` always (the call itself), `compactState` when the namespace loop
succeeded and the `CompactRange` call was reached. -/
def pruneStateStore (openErr : Option Err) (wOrc : Nat → Option Err)
    (compactErr : Option Err) (start cur minH fullH : Int) (st : String → Bool) :
    Except Err (String → Bool) × List Stage :=
  match openErr with
  | some e => (Except.error e, [Stage.pruneState])
  | none =>
    match pruneNamespaces wOrc start cur minH fullH stateDBKeys st 0 with
    | Except.error e => (Except.error e, [Stage.pruneState])
    | Except.ok (st', _) =>
      match compactErr with
      | some e => (Except.error e, [Stage.pruneState, Stage.compactState])
      | none => (Except.ok st', [Stage.pruneState, Stage.compactState])

/-- The keys the height loop constructs for namespace `pfx` starting at height
`c`, over `n` iterations: `pfx ++ decimal(c), …, pfx ++ decimal(c + n - 1)`. -/
def rangeKeys (pfx : String) (c : Int) (n : Nat) : List String :=
  (List.range n).map (fun (j : Nat) => pfx ++ toString (c + (j : Int)))

/-- All keys `pruneStateStore` deletes in namespace `ns`. -/
def nsDeletedKeys (ns : String) (start cur minH fullH : Int) : List String :=
  rangeKeys ns start (numCandidates start (retainHeight ns cur minH fullH))

/-- All keys `pruneStateStore` deletes across the three namespaces. -/
def allDeletedKeys (start cur minH fullH : Int) : List String :=
  (stateDBKeys.map (fun ns => nsDeletedKeys ns start cur minH fullH)).flatten

/-- Heights reported by the tendermint block store: `bs.Base()` and
`bs.Height()`. -/
structure BlockStore where
  base : Int
  height : Int
deriving DecidableEq, Repr

/-- Result of `pruneBlockStoreAndGetHeights`: the returned pair of heights and
the post-prune block store on success, together with observation traces: the
cutoff arguments passed to `bs.PruneBlocks`, the pruned-block counts printed
by `fmt.Println("[!] Pruned Block Store ...", prunedBlocks)`, and which of the
spec's stages ran inside this call. -/
structure BlockPruneResult where
  res : Except Err (Int × Int × BlockStore)
  pruneCalls : List Int
  prunedPrints : List Nat
  stages : List Stage

/-- Model of `pruneBlockStoreAndGetHeights` in prune.go: open the block store (oracle
`openErr`), read `startHeight := bs.Base()` and `currentHeight := bs.Height()`
from the store as opened, call `bs.PruneBlocks(currentHeight - fullHeight)`
once (its behaviour given by the oracle `pruneFn`, which may change the
store's own height bookkeeping), print the pruned count, then close the store
checking the close error (`closeErr`; the additional deferred close discards
its error). -/
def pruneBlockStoreAndGetHeights (openErr : Option Err) (bs : BlockStore)
    (pruneFn : Int → BlockStore → Except Err (Nat × BlockStore))
    (closeErr : Option Err) (fullH : Int) : BlockPruneResult :=
  match openErr with
  | some e => ⟨Except.error e, [], [], [Stage.resolveHeights]⟩
  | none =>
    let startH := bs.base
    let curH := bs.height
    let cutoff := curH - fullH
    match pruneFn cutoff bs with
    | Except.error e => ⟨Except.error e, [cutoff], [], [Stage.resolveHeights, Stage.pruneBlocks]⟩
    | Except.ok (n, bs') =>
      match closeErr with
      | some e =>
        ⟨Except.error e, [cutoff], [n], [Stage.resolveHeights, Stage.pruneBlocks]⟩
      | none =>
        ⟨Except.ok (startH, curH, bs'), [cutoff], [n], [Stage.resolveHeights, Stage.pruneBlocks]⟩

/-- Model of `compactBlockStore` in prune.go.  The function has a named return value
`err` and registers `defer func() { err = db.Close() }()` immediately after
`leveldb.OpenFile`, before checking the open error.  Consequences embedded
here: when the open fails the handle is nil and the deferred close
dereferences it, so the call panics instead of returning; when the open
succeeds, the value produced by the body's `return` statements (`bodyErr`,
carrying any `CompactRange` error) is overwritten by the deferred assignment,
so the call's result is exactly the close result. -/
def compactBlockStore (openErr compactErr closeErr : Option Err) : Outcome :=
  match openErr with
  | some _ => Outcome.nilDeref
  | none =>
    let _bodyErr : Option Err := compactErr
    match closeErr with
    | some e => Outcome.fail e
    | none => Outcome.ok

/-- Observable result of a whole `prune start` run: the command's outcome, the
stages that executed, and the final block-store heights and state-store
contents. -/
structure RunResult where
  out : Outcome
  trace : List Stage
  bs : BlockStore
  st : String → Bool

/-- Model of `runStartPruneCmd` in prune.go.  In source order: fetch the two flag
strings (oracles `getFullErr`, `getMinErr`), run the external liveness probe
`exec.Command("chihuahuad", "status")` (oracle `probeErr`: `none` means the
probe exited successfully, i.e. the node answered); if the probe succeeded the
command returns nil at once.  Otherwise the probe's error is discarded, the
two flags are parsed (oracles `parseFull`, `parseMin`), and the three stage
functions run in sequence, each returned error aborting the run. -/
def runStartPruneCmd (getFullErr getMinErr probeErr : Option Err)
    (parseFull parseMin : Except Err Int)
    (bsOpenErr : Option Err) (bs0 : BlockStore)
    (pruneFn : Int → BlockStore → Except Err (Nat × BlockStore))
    (bsCloseErr cOpenErr cCompactErr cCloseErr sOpenErr : Option Err)
    (wOrc : Nat → Option Err) (sCompactErr : Option Err)
    (st0 : String → Bool) : RunResult :=
  match getFullErr with
  | some e => ⟨Outcome.fail e, [], bs0, st0⟩
  | none =>
  match getMinErr with
  | some e => ⟨Outcome.fail e, [], bs0, st0⟩
  | none =>
  match probeErr with
  | none => ⟨Outcome.ok, [], bs0, st0⟩
  | some _ =>
  match parseFull with
  | Except.error e => ⟨Outcome.fail e, [], bs0, st0⟩
  | Except.ok fullH =>
  match parseMin with
  | Except.error e => ⟨Outcome.fail e, [], bs0, st0⟩
  | Except.ok minH =>
  let b := pruneBlockStoreAndGetHeights bsOpenErr bs0 pruneFn bsCloseErr fullH
  match b.res with
  | Except.error e => ⟨Outcome.fail e, b.stages, bs0, st0⟩
  | Except.ok (startH, curH, bs') =>
    match compactBlockStore cOpenErr cCompactErr cCloseErr with
    | Outcome.nilDeref => ⟨Outcome.nilDeref, b.stages ++ [Stage.compactBlocks], bs', st0⟩
    | Outcome.fail e => ⟨Outcome.fail e, b.stages ++ [Stage.compactBlocks], bs', st0⟩
    | Outcome.ok =>
      let ps := pruneStateStore sOpenErr wOrc sCompactErr startH curH minH fullH st0
      match ps.1 with
      | Except.error e => ⟨Outcome.fail e, b.stages ++ [Stage.compactBlocks] ++ ps.2, bs', st0⟩
      | Except.ok st' => ⟨Outcome.ok, b.stages ++ [Stage.compactBlocks] ++ ps.2, bs', st'⟩

/-- The five stages in the order the spec's state machine lists them. -/
def canonicalStages : List Stage :=
  [Stage.resolveHeights, Stage.pruneBlocks, Stage.compactBlocks,
   Stage.pruneState, Stage.compactState]

/-- The allowed execution traces: every position at which the linear stage
sequence can stop. -/
def tracePrefixes : List (List Stage) :=
  [[],
   [Stage.resolveHeights],
   [Stage.resolveHeights, Stage.pruneBlocks],
   [Stage.resolveHeights, Stage.pruneBlocks, Stage.compactBlocks],
   [Stage.resolveHeights, Stage.pruneBlocks, Stage.compactBlocks, Stage.pruneState],
   canonicalStages]

/-- Observe the membership of one key in the store a state-store run produced
(`none` when the run failed). -/
def okStoreAt (r : Except Err (String → Bool)) (k : String) : Option Bool :=
  match r with
  | Except.ok f => some (f k)
  | Except.error _ => none

/-- Observe the commit statistics of one namespace run (`none` when it
failed). -/
def okMid (r : Except Err NsResult) : Option (Nat × Nat) :=
  match r with
  | Except.ok s => some (s.midCommits, s.totalWrites)
  | Except.error _ => none

/-! ## Helper lemmas -/

theorem contains_append_key (l1 l2 : List String) (k : String) :
    (l1 ++ l2).contains k = (l1.contains k || l2.contains k) := by
  simp [List.contains]

theorem applyDeletes_nil (st : String → Bool) : applyDeletes st [] = st := by
  funext k
  simp [applyDeletes]

theorem applyDeletes_append (st : String → Bool) (a b : List String) :
    applyDeletes (applyDeletes st a) b = applyDeletes st (a ++ b) := by
  funext k
  simp [applyDeletes, contains_append_key, Bool.and_assoc]

theorem rangeKeys_succ (pfx : String) (c : Int) (n : Nat) :
    rangeKeys pfx c (n + 1) = (pfx ++ toString c) :: rangeKeys pfx (c + 1) n := by
  unfold rangeKeys
  rw [List.range_succ_eq_map]
  simp only [List.map_cons, List.map_map, Nat.cast_zero, add_zero]
  congr 1
  apply List.map_congr_left
  intro a _
  simp only [Function.comp_apply]
  congr 2
  push_cast
  ring

/-- The pending deletes already applied on top of the store contents: the
store as it will read once the current batch is flushed. -/
def effStore (s : LoopSt) : String → Bool := applyDeletes s.store s.batch

theorem dbWrite_nonempty (w : Nat → Option Err) (idx : Nat) (st : String → Bool)
    (l : List String) (a : String) :
    dbWrite w idx st (l ++ [a]) =
      (match w idx with
       | some e => Except.error e
       | none => Except.ok (applyDeletes st (l ++ [a]), idx + 1)) := by
  simp [dbWrite]

theorem effStore_mk (st : String → Bool) (b : List String) (c w m : Nat) :
    effStore ⟨st, b, c, w, m⟩ = applyDeletes st b := rfl

theorem heightLoop_store (wOrc : Nat → Option Err) (pfx : String) (start : Int) (n : Nat) :
    ∀ (i : Nat) (s s' : LoopSt),
      heightLoop wOrc pfx start n i s = Except.ok s' →
      effStore s' = applyDeletes (effStore s) (rangeKeys pfx (start + (i : Int)) n) := by
  induction n with
  | zero =>
    intro i s s' h
    simp only [heightLoop] at h
    cases h
    rw [show rangeKeys pfx (start + (i : Int)) 0 = [] from rfl, applyDeletes_nil]
  | succ n ih =>
    intro i s s' h
    simp only [heightLoop] at h
    rw [rangeKeys_succ]
    have hcast : start + ((i + 1 : Nat) : Int) = start + (i : Int) + 1 := by push_cast; ring
    split at h
    · rw [dbWrite_nonempty] at h
      cases hw : wOrc s.writeIdx
      · rw [hw] at h
        have H := ih (i + 1) _ s' h
        rw [hcast] at H
        rw [H, effStore_mk, applyDeletes_nil, ← applyDeletes_append s.store s.batch,
          applyDeletes_append]
        rfl
      · rw [hw] at h
        exact absurd h (by simp)
    · have H := ih (i + 1) _ s' h
      rw [hcast] at H
      rw [H, effStore_mk, ← applyDeletes_append s.store s.batch, applyDeletes_append]
      rfl

theorem heightLoop_mid (wOrc : Nat → Option Err) (pfx : String) (start : Int) (n : Nat) :
    ∀ (i : Nat) (s s' : LoopSt), s.curBatchSize = i →
      heightLoop wOrc pfx start n i s = Except.ok s' →
      s'.midCommits + i / batchMaxSize = s.midCommits + (i + n) / batchMaxSize := by
  induction n with
  | zero =>
    intro i s s' _ h
    simp only [heightLoop] at h
    cases h
    simp
  | succ n ih =>
    intro i s s' hsz h
    simp only [heightLoop] at h
    split at h
    case isTrue hc =>
      rw [dbWrite_nonempty] at h
      cases hw : wOrc s.writeIdx
      · rw [hw] at h
        have H := ih (i + 1) _ s' (by simp [hsz]) h
        simp only at H
        rw [hsz] at hc
        simp only [batchMaxSize] at hc H ⊢
        omega
      · rw [hw] at h
        exact absurd h (by simp)
    case isFalse hc =>
      have H := ih (i + 1) _ s' (by simp [hsz]) h
      simp only at H
      rw [hsz] at hc
      simp only [batchMaxSize] at hc H ⊢
      omega

theorem dbWrite_nil (w : Nat → Option Err) (idx : Nat) (st : String → Bool) :
    dbWrite w idx st [] = Except.ok (st, idx) := rfl

theorem dbWrite_of_ne_nil (w : Nat → Option Err) (idx : Nat) (st : String → Bool)
    (batch : List String) (hb : batch ≠ []) :
    dbWrite w idx st batch =
      (match w idx with
       | some e => Except.error e
       | none => Except.ok (applyDeletes st batch, idx + 1)) := by
  unfold dbWrite
  rw [List.isEmpty_eq_false.mpr hb]
  rfl

theorem pruneNamespace_store (wOrc : Nat → Option Err) (ns : String) (start retain : Int)
    (st : String → Bool) (idx : Nat) (r : NsResult)
    (h : pruneNamespace wOrc ns start retain st idx = Except.ok r) :
    r.store = applyDeletes st (rangeKeys ns start (numCandidates start retain)) := by
  cases hl : heightLoop wOrc ns start (numCandidates start retain) 0 ⟨st, [], 0, idx, 0⟩ with
  | error e => simp [pruneNamespace, hl] at h
  | ok s =>
    have H := heightLoop_store wOrc ns start (numCandidates start retain) 0 _ s hl
    simp only [effStore, applyDeletes_nil, Nat.cast_zero, add_zero] at H
    by_cases hb : s.batch = []
    · simp only [pruneNamespace, hl, hb, dbWrite_nil] at h
      cases h
      show s.store = _
      rw [← H, hb, applyDeletes_nil]
    · cases hw : wOrc s.writeIdx with
      | some e =>
        simp [pruneNamespace, hl, dbWrite_of_ne_nil wOrc s.writeIdx s.store s.batch hb, hw] at h
      | none =>
        simp only [pruneNamespace, hl, dbWrite_of_ne_nil wOrc s.writeIdx s.store s.batch hb,
          hw] at h
        cases h
        show applyDeletes s.store s.batch = _
        rw [← H]

/-- C4: for a namespace with `N = max(0, retain - start)` candidate heights,
the state pruner commits the batch exactly `⌊N / 1000⌋` times during the
height loop (the guard fires each time the cumulative counter — equivalently,
the pending-operation count — reaches a positive multiple of `batchMaxSize`,
and a fresh empty batch is started after each commit), plus exactly one final
flush after the loop, for every `N`. -/
theorem c4_batch_commits_floor_div (wOrc : Nat → Option Err) (ns : String) (start retain : Int)
    (st : String → Bool) (idx : Nat) (r : NsResult)
    (h : pruneNamespace wOrc ns start retain st idx = Except.ok r) :
    r.midCommits = numCandidates start retain / batchMaxSize ∧
    r.totalWrites = numCandidates start retain / batchMaxSize + 1 := by
  cases hl : heightLoop wOrc ns start (numCandidates start retain) 0 ⟨st, [], 0, idx, 0⟩ with
  | error e => simp [pruneNamespace, hl] at h
  | ok s =>
    have H := heightLoop_mid wOrc ns start (numCandidates start retain) 0 _ s rfl hl
    simp only [Nat.zero_div, Nat.zero_add, Nat.add_zero, Nat.zero_add] at H
    have hmid : s.midCommits = numCandidates start retain / batchMaxSize := by omega
    by_cases hb : s.batch = []
    · simp only [pruneNamespace, hl, hb, dbWrite_nil] at h
      cases h
      exact ⟨hmid, by rw [← hmid]⟩
    · cases hw : wOrc s.writeIdx with
      | some e =>
        simp [pruneNamespace, hl, dbWrite_of_ne_nil wOrc s.writeIdx s.store s.batch hb, hw] at h
      | none =>
        simp only [pruneNamespace, hl, dbWrite_of_ne_nil wOrc s.writeIdx s.store s.batch hb,
          hw] at h
        cases h
        exact ⟨hmid, by rw [← hmid]⟩

theorem pruneNamespaces_store (wOrc : Nat → Option Err) (start cur minH fullH : Int) :
    ∀ (nss : List String) (st : String → Bool) (idx : Nat) (st' : String → Bool) (idx' : Nat),
      pruneNamespaces wOrc start cur minH fullH nss st idx = Except.ok (st', idx') →
      st' = applyDeletes st
        ((nss.map (fun ns => nsDeletedKeys ns start cur minH fullH)).flatten) := by
  intro nss
  induction nss with
  | nil =>
    intro st idx st' idx' h
    simp only [pruneNamespaces] at h
    cases h
    rw [List.map_nil, List.flatten_nil, applyDeletes_nil]
  | cons ns rest ih =>
    intro st idx st' idx' h
    cases hn : pruneNamespace wOrc ns start (retainHeight ns cur minH fullH) st idx with
    | error e => simp [pruneNamespaces, hn] at h
    | ok r =>
      simp only [pruneNamespaces, hn] at h
      have H1 := pruneNamespace_store wOrc ns start (retainHeight ns cur minH fullH) st idx r hn
      have H2 := ih r.store r.writeIdx st' idx' h
      rw [H2, H1, applyDeletes_append]
      rw [List.map_cons, List.flatten_cons]
      rfl

theorem mem_rangeKeys (pfx : String) (start c : Int) (n : Nat)
    (h1 : start ≤ c) (h2 : c < start + (n : Int)) :
    (pfx ++ toString c) ∈ rangeKeys pfx start n := by
  unfold rangeKeys
  rw [List.mem_map]
  refine ⟨(c - start).toNat, ?_, ?_⟩
  · rw [List.mem_range]
    omega
  · congr 1
    congr 1
    omega

theorem mem_allDeletedKeys (ns : String) (start cur minH fullH c : Int)
    (hns : ns ∈ stateDBKeys) (h1 : start ≤ c) (h2 : c < retainHeight ns cur minH fullH) :
    (ns ++ toString c) ∈ allDeletedKeys start cur minH fullH := by
  unfold allDeletedKeys
  rw [List.mem_flatten]
  refine ⟨nsDeletedKeys ns start cur minH fullH, List.mem_map_of_mem _ hns, ?_⟩
  unfold nsDeletedKeys
  apply mem_rangeKeys
  · exact h1
  · unfold numCandidates
    omega

theorem contains_of_mem (l : List String) (k : String) (h : k ∈ l) : l.contains k = true := by
  simp [List.contains]
  exact h

theorem heightLoop_total (pfx : String) (start : Int) :
    ∀ (n i : Nat) (s : LoopSt),
      ∃ s', heightLoop (fun _ => none) pfx start n i s = Except.ok s' := by
  intro n
  induction n with
  | zero =>
    intro i s
    exact ⟨s, rfl⟩
  | succ n ih =>
    intro i s
    simp only [heightLoop]
    split
    · simp only [dbWrite_nonempty]
      exact ih (i + 1) _
    · exact ih (i + 1) _

theorem pruneNamespace_total (ns : String) (start retain : Int)
    (st : String → Bool) (idx : Nat) :
    ∃ r, pruneNamespace (fun _ => none) ns start retain st idx = Except.ok r := by
  obtain ⟨s, hs⟩ :=
    heightLoop_total ns start (numCandidates start retain) 0 ⟨st, [], 0, idx, 0⟩
  by_cases hb : s.batch = []
  · exact ⟨⟨s.store, s.writeIdx, s.midCommits, s.midCommits + 1⟩,
      by simp only [pruneNamespace, hs, hb, dbWrite_nil]⟩
  · exact ⟨⟨applyDeletes s.store s.batch, s.writeIdx + 1, s.midCommits, s.midCommits + 1⟩,
      by simp only [pruneNamespace, hs,
        dbWrite_of_ne_nil (fun _ => none) s.writeIdx s.store s.batch hb]⟩

/-- Witness for C4: a namespace with 1002 candidate heights commits once
mid-loop and makes two `db.Write` calls in total. -/
theorem c4_batch_commits_floor_div_witness :
    okMid (pruneNamespace (fun _ => none) kValidators 0 1002 (fun _ => true) 0) =
      some (1, 2) := by
  obtain ⟨r, hr⟩ := pruneNamespace_total kValidators 0 1002 (fun _ => true) 0
  have H := c4_batch_commits_floor_div (fun _ => none) kValidators 0 1002
    (fun _ => true) 0 r hr
  rw [hr]
  show some (r.midCommits, r.totalWrites) = some (1, 2)
  rw [H.1, H.2]
  decide

/-- C1: on a successful run, `pruneStateStore` removes from the state store
exactly the keys `prefix ++ decimal(c)` with `baseHeight ≤ c < retainHeight`
for each of the three namespaces — where `retainHeight` is
`currentHeight - minHeight` for the ABCI-responses namespace and
`currentHeight - fullHeight` for the other two — and leaves every other key
unaffected. -/
theorem c1_statePrune_deletes_exact_ranges
    (oErr : Option Err) (w : Nat → Option Err) (cErr : Option Err)
    (start cur minH fullH : Int) (st st' : String → Bool)
    (h : (pruneStateStore oErr w cErr start cur minH fullH st).1 = Except.ok st') :
    st' = applyDeletes st (allDeletedKeys start cur minH fullH) ∧
    (∀ ns, ns ∈ stateDBKeys → ∀ c : Int,
        start ≤ c → c < retainHeight ns cur minH fullH →
        st' (ns ++ toString c) = false) ∧
    (∀ k, (allDeletedKeys start cur minH fullH).contains k = false → st' k = st k) := by
  cases oErr with
  | some e => simp [pruneStateStore] at h
  | none =>
    cases hn : pruneNamespaces w start cur minH fullH stateDBKeys st 0 with
    | error e => simp [pruneStateStore, hn] at h
    | ok p =>
      obtain ⟨st1, idx1⟩ := p
      cases cErr with
      | some e => simp [pruneStateStore, hn] at h
      | none =>
        simp only [pruneStateStore, hn] at h
        cases h
        have HM := pruneNamespaces_store w start cur minH fullH stateDBKeys st 0 st' idx1 hn
        refine ⟨HM, ?_, ?_⟩
        · intro ns hns c h1 h2
          have hmem := mem_allDeletedKeys ns start cur minH fullH c hns h1 h2
          have hc := contains_of_mem _ _ hmem
          rw [HM]
          show (st (ns ++ toString c) &&
            !((allDeletedKeys start cur minH fullH).contains (ns ++ toString c))) = false
          rw [hc]
          simp
        · intro k hk
          rw [HM]
          show (st k && !((allDeletedKeys start cur minH fullH).contains k)) = st k
          rw [hk]
          simp

/-- Witness for C1: with `start = 0`, `cur = 5`, `minH = 5`, `fullH = 3` on a
full store, the key `validatorsKey:0` is deleted and an unrelated key
survives. -/
theorem c1_statePrune_deletes_exact_ranges_witness :
    okStoreAt (pruneStateStore none (fun _ => none) none 0 5 5 3 (fun _ => true)).1
      "validatorsKey:0" = some false ∧
    okStoreAt (pruneStateStore none (fun _ => none) none 0 5 5 3 (fun _ => true)).1
      "zzz" = some true := by
  cases hr : (pruneStateStore none (fun _ => none) none 0 5 5 3 (fun _ => true)).1 with
  | error e => exact Except.noConfusion hr
  | ok stv =>
    have H := c1_statePrune_deletes_exact_ranges none (fun _ => none) none 0 5 5 3
      (fun _ => true) stv hr
    constructor
    · show some (stv "validatorsKey:0") = some false
      have h1 := H.2.1 kValidators (by decide) 0 (by decide) (by decide)
      rw [show ("validatorsKey:0" : String) = kValidators ++ toString (0 : Int) from by decide]
      rw [h1]
    · show some (stv "zzz") = some true
      have h2 := H.2.2 "zzz" (by decide)
      rw [h2]

/-- C8: when a namespace's retention height lies below the base height, the
state pruner performs zero deletions for that namespace, reports no error,
and the namespace loop proceeds to the next namespace. -/
theorem c8_retain_below_base_noop
    (w : Nat → Option Err) (ns : String) (start cur minH fullH : Int)
    (st : String → Bool) (idx : Nat) (rest : List String)
    (h : retainHeight ns cur minH fullH < start) :
    pruneNamespace w ns start (retainHeight ns cur minH fullH) st idx =
      Except.ok ⟨st, idx, 0, 1⟩ ∧
    pruneNamespaces w start cur minH fullH (ns :: rest) st idx =
      pruneNamespaces w start cur minH fullH rest st idx := by
  have hN : numCandidates start (retainHeight ns cur minH fullH) = 0 := by
    unfold numCandidates
    omega
  have h1 : pruneNamespace w ns start (retainHeight ns cur minH fullH) st idx =
      Except.ok ⟨st, idx, 0, 1⟩ := by
    unfold pruneNamespace
    rw [hN]
    simp only [heightLoop, dbWrite_nil]
  refine ⟨h1, ?_⟩
  simp only [pruneNamespaces, h1]

/-- Witness for C8: ABCI retention height 4 below base height 5 is a no-op. -/
theorem c8_retain_below_base_noop_witness :
    pruneNamespace (fun _ => none) kABCIResponses 5 (retainHeight kABCIResponses 4 0 0)
      (fun _ => true) 0 = Except.ok ⟨(fun _ => true), 0, 0, 1⟩ ∧
    pruneNamespaces (fun _ => none) 5 4 0 0 [kABCIResponses] (fun _ => true) 0 =
      pruneNamespaces (fun _ => none) 5 4 0 0 [] (fun _ => true) 0 :=
  c8_retain_below_base_noop (fun _ => none) kABCIResponses 5 4 0 0 (fun _ => true) 0 []
    (by decide)

/-- C7: whenever the block-store compactor's open succeeds, its result is
exactly what the close returns — a close error is returned even though every
earlier step succeeded, and a close success yields success regardless of the
compaction step (the deferred `err = db.Close()` overwrites the named
return). -/
theorem c7_close_result_authoritative (compactErr : Option Err) (e : Err) :
    compactBlockStore none compactErr (some e) = Outcome.fail e ∧
    compactBlockStore none compactErr none = Outcome.ok :=
  ⟨rfl, rfl⟩

/-- C3: when opening the block store for compaction fails, `compactBlockStore`
does not return the open error: the deferred close runs against the nil
handle and the call panics with a nil-pointer dereference. -/
theorem c3_open_failure_panics (e : Err) (compactErr closeErr : Option Err) :
    compactBlockStore (some e) compactErr closeErr = Outcome.nilDeref :=
  rfl

/-- Counterexample to C2 as stated: a run in which the block-store
`CompactRange` call fails while its close succeeds completes with `ok` and
executes every later stage — the run neither halts at the compaction stage
nor returns the compaction error. -/
theorem c2_compaction_failure_not_fatal_counterexample :
    (runStartPruneCmd none none (some "connection refused") (Except.ok 188000)
      (Except.ok 1000) none ⟨1, 10⟩ (fun _ b => Except.ok (0, b)) none none
      (some "compaction failed") none none (fun _ => none) none (fun _ => true)).out =
      Outcome.ok ∧
    (runStartPruneCmd none none (some "connection refused") (Except.ok 188000)
      (Except.ok 1000) none ⟨1, 10⟩ (fun _ b => Except.ok (0, b)) none none
      (some "compaction failed") none none (fun _ => none) none (fun _ => true)).trace =
      canonicalStages :=
  ⟨rfl, rfl⟩

/-- C2 (amended): a `CompactRange` failure on the state store is fatal and
the error is returned to the caller unchanged; on the block store the
deferred close overwrites the named return, so the compaction error is
discarded and `compactBlockStore` returns whatever the close returns, as if
the compaction had succeeded. -/
theorem c2_compaction_error_amended
    (w : Nat → Option Err) (start cur minH fullH : Int) (st st1 : String → Bool)
    (idx1 : Nat) (e : Err) (cl : Option Err)
    (h : pruneNamespaces w start cur minH fullH stateDBKeys st 0 = Except.ok (st1, idx1)) :
    (pruneStateStore none w (some e) start cur minH fullH st).1 = Except.error e ∧
    compactBlockStore none (some e) cl = compactBlockStore none none cl := by
  constructor
  · simp only [pruneStateStore, h]
  · rfl

/-- Witness for the amended C2. -/
theorem c2_compaction_error_amended_witness :
    (pruneStateStore none (fun _ => none) (some "compaction failed") 0 0 0 0
      (fun _ => true)).1 = Except.error "compaction failed" ∧
    compactBlockStore none (some "compaction failed") none =
      compactBlockStore none none none :=
  c2_compaction_error_amended (fun _ => none) 0 0 0 0 (fun _ => true) (fun _ => true) 0
    "compaction failed" none rfl

/-- C10: block pruning is a single `bs.PruneBlocks` call with cutoff
`currentHeight - fullHeight`; `baseHeight` and `currentHeight` are read from
the store before that call (so they reflect the pre-prune state) and are what
the function returns, and the pruned-block count it reports is exactly the
count that call returned. -/
theorem c10_block_prune_single_call
    (bOE : Option Err) (bs : BlockStore)
    (pruneFn : Int → BlockStore → Except Err (Nat × BlockStore))
    (bCE : Option Err) (fullH : Int) :
    (bOE = none →
      (pruneBlockStoreAndGetHeights bOE bs pruneFn bCE fullH).pruneCalls =
        [bs.height - fullH]) ∧
    (∀ (sh ch : Int) (bs' : BlockStore),
      (pruneBlockStoreAndGetHeights bOE bs pruneFn bCE fullH).res =
        Except.ok (sh, ch, bs') →
      sh = bs.base ∧ ch = bs.height ∧
      ∃ n : Nat, pruneFn (bs.height - fullH) bs = Except.ok (n, bs') ∧
        (pruneBlockStoreAndGetHeights bOE bs pruneFn bCE fullH).prunedPrints = [n]) := by
  constructor
  · intro hO
    subst hO
    cases hp : pruneFn (bs.height - fullH) bs with
    | error e => simp [pruneBlockStoreAndGetHeights, hp]
    | ok p =>
      obtain ⟨n, bs2⟩ := p
      cases bCE <;> simp [pruneBlockStoreAndGetHeights, hp]
  · intro sh ch bs' hres
    cases bOE with
    | some e => simp [pruneBlockStoreAndGetHeights] at hres
    | none =>
      cases hp : pruneFn (bs.height - fullH) bs with
      | error e => simp [pruneBlockStoreAndGetHeights, hp] at hres
      | ok p =>
        obtain ⟨n, bs2⟩ := p
        cases bCE with
        | some e => simp [pruneBlockStoreAndGetHeights, hp] at hres
        | none =>
          simp only [pruneBlockStoreAndGetHeights, hp, Except.ok.injEq,
            Prod.mk.injEq] at hres
          obtain ⟨h1, h2, h3⟩ := hres
          subst h1
          subst h2
          subst h3
          exact ⟨rfl, rfl, n, rfl, by simp [pruneBlockStoreAndGetHeights, hp]⟩

/-- Witness for C10. -/
theorem c10_block_prune_single_call_witness :
    (pruneBlockStoreAndGetHeights none ⟨1, 10⟩ (fun _ b => Except.ok (3, b)) none
      4).pruneCalls = [6] ∧
    (pruneBlockStoreAndGetHeights none ⟨1, 10⟩ (fun _ b => Except.ok (3, b)) none
      4).prunedPrints = [3] := by
  have H := c10_block_prune_single_call none ⟨1, 10⟩ (fun _ b => Except.ok (3, b)) none 4
  refine ⟨H.1 rfl, ?_⟩
  obtain ⟨-, -, n, hn, hp⟩ := H.2 1 10 ⟨1, 10⟩ rfl
  injection hn with hn2
  injection hn2 with hn3 hn4
  rw [hp, ← hn3]

/-- C5: when the liveness probe succeeds (the node answers), the orchestrator
returns without error immediately: no stage runs, and neither store is
touched — the returned heights and state-store contents are the initial
ones. -/
theorem c5_probe_success_aborts_cleanly
    (parseFull parseMin : Except Err Int) (bOE : Option Err) (bs0 : BlockStore)
    (pruneFn : Int → BlockStore → Except Err (Nat × BlockStore))
    (bCE cOE cCE cClE sOE : Option Err) (w : Nat → Option Err) (sCE : Option Err)
    (st0 : String → Bool) :
    runStartPruneCmd none none none parseFull parseMin bOE bs0 pruneFn bCE cOE cCE cClE
      sOE w sCE st0 = ⟨Outcome.ok, [], bs0, st0⟩ :=
  rfl

theorem blockStages_shape (bOE : Option Err) (bs : BlockStore)
    (pruneFn : Int → BlockStore → Except Err (Nat × BlockStore))
    (bCE : Option Err) (fullH : Int) :
    (pruneBlockStoreAndGetHeights bOE bs pruneFn bCE fullH).stages =
      [Stage.resolveHeights] ∨
    (pruneBlockStoreAndGetHeights bOE bs pruneFn bCE fullH).stages =
      [Stage.resolveHeights, Stage.pruneBlocks] := by
  cases bOE with
  | some e => left; rfl
  | none =>
    cases hp : pruneFn (bs.height - fullH) bs with
    | error e => right; simp [pruneBlockStoreAndGetHeights, hp]
    | ok p =>
      obtain ⟨n, bs2⟩ := p
      cases bCE <;> right <;> simp [pruneBlockStoreAndGetHeights, hp]

theorem blockStages_of_ok (bOE : Option Err) (bs : BlockStore)
    (pruneFn : Int → BlockStore → Except Err (Nat × BlockStore))
    (bCE : Option Err) (fullH : Int) (x : Int × Int × BlockStore)
    (h : (pruneBlockStoreAndGetHeights bOE bs pruneFn bCE fullH).res = Except.ok x) :
    (pruneBlockStoreAndGetHeights bOE bs pruneFn bCE fullH).stages =
      [Stage.resolveHeights, Stage.pruneBlocks] := by
  cases bOE with
  | some e => simp [pruneBlockStoreAndGetHeights] at h
  | none =>
    cases hp : pruneFn (bs.height - fullH) bs with
    | error e => simp [pruneBlockStoreAndGetHeights, hp]
    | ok p =>
      obtain ⟨n, bs2⟩ := p
      cases bCE <;> simp [pruneBlockStoreAndGetHeights, hp]

theorem stateStages_shape (sOE : Option Err) (w : Nat → Option Err) (sCE : Option Err)
    (start cur minH fullH : Int) (st : String → Bool) :
    (pruneStateStore sOE w sCE start cur minH fullH st).2 = [Stage.pruneState] ∨
    (pruneStateStore sOE w sCE start cur minH fullH st).2 =
      [Stage.pruneState, Stage.compactState] := by
  cases sOE with
  | some e => left; rfl
  | none =>
    cases hn : pruneNamespaces w start cur minH fullH stateDBKeys st 0 with
    | error e => left; simp [pruneStateStore, hn]
    | ok p =>
      obtain ⟨st1, idx1⟩ := p
      cases sCE <;> right <;> simp [pruneStateStore, hn]

theorem stateStages_of_ok (sOE : Option Err) (w : Nat → Option Err) (sCE : Option Err)
    (start cur minH fullH : Int) (st st1 : String → Bool)
    (h : (pruneStateStore sOE w sCE start cur minH fullH st).1 = Except.ok st1) :
    (pruneStateStore sOE w sCE start cur minH fullH st).2 =
      [Stage.pruneState, Stage.compactState] := by
  cases sOE with
  | some e => simp [pruneStateStore] at h
  | none =>
    cases hn : pruneNamespaces w start cur minH fullH stateDBKeys st 0 with
    | error e => simp [pruneStateStore, hn] at h
    | ok p =>
      obtain ⟨st2, idx2⟩ := p
      cases sCE with
      | some e => simp [pruneStateStore, hn] at h
      | none => simp [pruneStateStore, hn]

/-- C6: the probe's own execution error is discarded — two runs that differ
only in the probe's error value are identical — and any probe failure at all
(including failure to execute the probe binary) lets the run proceed into the
destructive store stages: with well-formed flags the trace starts with the
height-resolution stage. -/
theorem c6_probe_error_discarded
    (gF gM : Option Err) (e1 e2 : Err) (pF pM : Except Err Int) (fH mH : Int)
    (bOE : Option Err) (bs0 : BlockStore)
    (pruneFn : Int → BlockStore → Except Err (Nat × BlockStore))
    (bCE cOE cCE cClE sOE : Option Err) (w : Nat → Option Err) (sCE : Option Err)
    (st0 : String → Bool) :
    runStartPruneCmd gF gM (some e1) pF pM bOE bs0 pruneFn bCE cOE cCE cClE sOE w sCE
      st0 =
    runStartPruneCmd gF gM (some e2) pF pM bOE bs0 pruneFn bCE cOE cCE cClE sOE w sCE
      st0 ∧
    (runStartPruneCmd none none (some e1) (Except.ok fH) (Except.ok mH) bOE bs0 pruneFn
      bCE cOE cCE cClE sOE w sCE st0).trace.head? = some Stage.resolveHeights := by
  constructor
  · cases gF <;> cases gM <;> rfl
  · cases hres : (pruneBlockStoreAndGetHeights bOE bs0 pruneFn bCE fH).res with
    | error e =>
      simp only [runStartPruneCmd, hres]
      rcases blockStages_shape bOE bs0 pruneFn bCE fH with h | h <;> rw [h] <;> rfl
    | ok x =>
      obtain ⟨sh, ch, bs1⟩ := x
      have hbs := blockStages_of_ok bOE bs0 pruneFn bCE fH _ hres
      cases hc : compactBlockStore cOE cCE cClE with
      | nilDeref => simp [runStartPruneCmd, hres, hc, hbs]
      | fail e => simp [runStartPruneCmd, hres, hc, hbs]
      | ok =>
        cases hps : (pruneStateStore sOE w sCE sh ch mH fH st0).1 with
        | error e => simp [runStartPruneCmd, hres, hc, hps, hbs]
        | ok st1 => simp [runStartPruneCmd, hres, hc, hps, hbs]

/-- C9: the stages `resolveHeights → pruneBlocks → compactBlocks → pruneState
→ compactState` execute strictly in that order: every run's trace is a
stopping point of the canonical sequence, and — in a run that passes the
preliminary flag and probe steps — each stage runs only when every earlier
stage's call succeeded; the first stage call that returns an error halts the
run with exactly that error (no retry), and no later stage executes.  A stage
here fails when its call returns a non-nil error at the orchestrator level;
the two anomalies inside the block-store compaction stage (an internally
swallowed `CompactRange` error and the nil-handle panic) are the subject of
C2 and C3. -/
theorem c9_linear_stage_machine
    (p : Err) (fH mH : Int) (e : Err)
    (bOE : Option Err) (bs0 : BlockStore)
    (pruneFn : Int → BlockStore → Except Err (Nat × BlockStore))
    (bCE cOE cCE cClE sOE : Option Err) (w : Nat → Option Err) (sCE : Option Err)
    (st0 : String → Bool) :
    (∀ (gF gM pE : Option Err) (pF pM : Except Err Int),
      (runStartPruneCmd gF gM pE pF pM bOE bs0 pruneFn bCE cOE cCE cClE sOE w sCE
        st0).trace ∈ tracePrefixes) ∧
    (bOE = some e →
      (runStartPruneCmd none none (some p) (Except.ok fH) (Except.ok mH) bOE bs0 pruneFn
        bCE cOE cCE cClE sOE w sCE st0).out = Outcome.fail e ∧
      (runStartPruneCmd none none (some p) (Except.ok fH) (Except.ok mH) bOE bs0 pruneFn
        bCE cOE cCE cClE sOE w sCE st0).trace = [Stage.resolveHeights]) ∧
    (bOE = none → pruneFn (bs0.height - fH) bs0 = Except.error e →
      (runStartPruneCmd none none (some p) (Except.ok fH) (Except.ok mH) bOE bs0 pruneFn
        bCE cOE cCE cClE sOE w sCE st0).out = Outcome.fail e ∧
      (runStartPruneCmd none none (some p) (Except.ok fH) (Except.ok mH) bOE bs0 pruneFn
        bCE cOE cCE cClE sOE w sCE st0).trace =
        [Stage.resolveHeights, Stage.pruneBlocks]) ∧
    (bOE = none → ∀ (n : Nat) (bs1 : BlockStore),
      pruneFn (bs0.height - fH) bs0 = Except.ok (n, bs1) → bCE = some e →
      (runStartPruneCmd none none (some p) (Except.ok fH) (Except.ok mH) bOE bs0 pruneFn
        bCE cOE cCE cClE sOE w sCE st0).out = Outcome.fail e ∧
      (runStartPruneCmd none none (some p) (Except.ok fH) (Except.ok mH) bOE bs0 pruneFn
        bCE cOE cCE cClE sOE w sCE st0).trace =
        [Stage.resolveHeights, Stage.pruneBlocks]) ∧
    (bOE = none → ∀ (n : Nat) (bs1 : BlockStore),
      pruneFn (bs0.height - fH) bs0 = Except.ok (n, bs1) → bCE = none →
      compactBlockStore cOE cCE cClE = Outcome.fail e →
      (runStartPruneCmd none none (some p) (Except.ok fH) (Except.ok mH) bOE bs0 pruneFn
        bCE cOE cCE cClE sOE w sCE st0).out = Outcome.fail e ∧
      (runStartPruneCmd none none (some p) (Except.ok fH) (Except.ok mH) bOE bs0 pruneFn
        bCE cOE cCE cClE sOE w sCE st0).trace =
        [Stage.resolveHeights, Stage.pruneBlocks, Stage.compactBlocks]) ∧
    (bOE = none → ∀ (n : Nat) (bs1 : BlockStore),
      pruneFn (bs0.height - fH) bs0 = Except.ok (n, bs1) → bCE = none →
      compactBlockStore cOE cCE cClE = Outcome.ok →
      (pruneStateStore sOE w sCE bs0.base bs0.height mH fH st0).1 = Except.error e →
      (runStartPruneCmd none none (some p) (Except.ok fH) (Except.ok mH) bOE bs0 pruneFn
        bCE cOE cCE cClE sOE w sCE st0).out = Outcome.fail e ∧
      (runStartPruneCmd none none (some p) (Except.ok fH) (Except.ok mH) bOE bs0 pruneFn
        bCE cOE cCE cClE sOE w sCE st0).trace =
        [Stage.resolveHeights, Stage.pruneBlocks, Stage.compactBlocks] ++
          (pruneStateStore sOE w sCE bs0.base bs0.height mH fH st0).2) ∧
    (bOE = none → ∀ (n : Nat) (bs1 : BlockStore),
      pruneFn (bs0.height - fH) bs0 = Except.ok (n, bs1) → bCE = none →
      compactBlockStore cOE cCE cClE = Outcome.ok →
      ∀ st1 : String → Bool,
      (pruneStateStore sOE w sCE bs0.base bs0.height mH fH st0).1 = Except.ok st1 →
      (runStartPruneCmd none none (some p) (Except.ok fH) (Except.ok mH) bOE bs0 pruneFn
        bCE cOE cCE cClE sOE w sCE st0).out = Outcome.ok ∧
      (runStartPruneCmd none none (some p) (Except.ok fH) (Except.ok mH) bOE bs0 pruneFn
        bCE cOE cCE cClE sOE w sCE st0).trace = canonicalStages) := by
  refine ⟨?_, ?_, ?_, ?_, ?_, ?_, ?_⟩
  · intro gF gM pE pF pM
    cases gF with
    | some e1 => simp [runStartPruneCmd, tracePrefixes]
    | none =>
    cases gM with
    | some e1 => simp [runStartPruneCmd, tracePrefixes]
    | none =>
    cases pE with
    | none => simp [runStartPruneCmd, tracePrefixes]
    | some pe =>
    cases pF with
    | error e1 => simp [runStartPruneCmd, tracePrefixes]
    | ok fH2 =>
    cases pM with
    | error e1 => simp [runStartPruneCmd, tracePrefixes]
    | ok mH2 =>
    cases hres : (pruneBlockStoreAndGetHeights bOE bs0 pruneFn bCE fH2).res with
    | error e1 =>
      rcases blockStages_shape bOE bs0 pruneFn bCE fH2 with h | h <;>
        simp [runStartPruneCmd, hres, h, tracePrefixes]
    | ok x =>
      obtain ⟨sh, ch, bs1⟩ := x
      have hbs := blockStages_of_ok bOE bs0 pruneFn bCE fH2 _ hres
      cases hc : compactBlockStore cOE cCE cClE with
      | nilDeref => simp [runStartPruneCmd, hres, hc, hbs, tracePrefixes]
      | fail e1 => simp [runStartPruneCmd, hres, hc, hbs, tracePrefixes]
      | ok =>
        cases hps : (pruneStateStore sOE w sCE sh ch mH2 fH2 st0).1 with
        | error e1 =>
          rcases stateStages_shape sOE w sCE sh ch mH2 fH2 st0 with h | h <;>
            simp [runStartPruneCmd, hres, hc, hps, hbs, h, tracePrefixes, canonicalStages]
        | ok st1 =>
          have hss := stateStages_of_ok sOE w sCE sh ch mH2 fH2 st0 st1 hps
          simp [runStartPruneCmd, hres, hc, hps, hbs, hss, tracePrefixes, canonicalStages]
  · intro hO
    subst hO
    constructor <;> rfl
  · intro hO hp
    subst hO
    constructor <;> simp [runStartPruneCmd, pruneBlockStoreAndGetHeights, hp]
  · intro hO n bs1 hp hbce
    subst hO
    subst hbce
    constructor <;> simp [runStartPruneCmd, pruneBlockStoreAndGetHeights, hp]
  · intro hO n bs1 hp hbce hc
    subst hO
    subst hbce
    constructor <;>
      simp [runStartPruneCmd, pruneBlockStoreAndGetHeights, hp, hc]
  · intro hO n bs1 hp hbce hc hps
    subst hO
    subst hbce
    constructor <;>
      simp [runStartPruneCmd, pruneBlockStoreAndGetHeights, hp, hc, hps]
  · intro hO n bs1 hp hbce hc st1 hps
    subst hO
    subst hbce
    have hss := stateStages_of_ok sOE w sCE bs0.base bs0.height mH fH st0 st1 hps
    constructor <;>
      simp [runStartPruneCmd, pruneBlockStoreAndGetHeights, hp, hc, hps, hss,
        canonicalStages]

/-- Witness for C9: a fully successful run finishes with `ok` and the full
canonical trace. -/
theorem c9_linear_stage_machine_witness :
    (runStartPruneCmd none none (some "exit status 1") (Except.ok 0) (Except.ok 0) none
      ⟨0, 0⟩ (fun _ b => Except.ok (0, b)) none none none none none (fun _ => none) none
      (fun _ => true)).out = Outcome.ok ∧
    (runStartPruneCmd none none (some "exit status 1") (Except.ok 0) (Except.ok 0) none
      ⟨0, 0⟩ (fun _ b => Except.ok (0, b)) none none none none none (fun _ => none) none
      (fun _ => true)).trace = canonicalStages :=
  (c9_linear_stage_machine "exit status 1" 0 0 "unused" none ⟨0, 0⟩
    (fun _ b => Except.ok (0, b)) none none none none none (fun _ => none) none
    (fun _ => true)).2.2.2.2.2.2 rfl 0 ⟨0, 0⟩ rfl rfl rfl (fun _ => true) rfl
